import Mathlib

/-!
Shallow embedding of `scripts/deadcode.py`, a heuristic dead-code detector
for Go projects.  The script scans a file tree for `*.go` files, extracts
function/method names with the regex `^\s*func\s+(?:\([^)]+\)\s+)?(\w+)`,
counts word-boundary token occurrences of each extracted name over the same
file set, classifies symbols as dead / low-usage / normal subject to
exclusion rules, and renders a deterministic text report.

Modelling conventions:
- lines and names are Lean `String`s; the regex machinery works on `List Char`;
- character classes model the ASCII behaviour of Python `\w`, `\s`,
  `str.isupper`, `str.strip` (identifiers scanned by this tool are ASCII);
- each Python `print(...)` call is one element of a `List String`
  (stdout and stderr are separate lists);
- per-file open/decode failure is modelled by the `failAt` field of a
  `GoFile`: `read_file` is a generator whose `try` wraps the yield loop, so
  an `IOError`/`UnicodeDecodeError` that surfaces only after `k` lines were
  already decoded and yielded leaves those `k` lines consumed by the caller
  and then prints one warning; `failAt = some k` reads exactly that prefix,
  with `k = 0` the open-failure case and `failAt = none` a clean read.
-/

/-- ASCII model of Python regex `\w` (word character). -/
def isWordChar (c : Char) : Bool := c.isAlphanum || c == '_'

/-- ASCII model of Python regex `\s` (whitespace character). -/
def isSpaceChar (c : Char) : Bool :=
  c == ' ' || c == '\t' || c == '\n' || c == '\r' || c == '\x0b' || c == '\x0c'

/-- Accumulator-style tokenizer: splits a line into the maximal runs of word
characters, i.e. the matches of `\b(\w+)\b` found by `WORD_BOUNDARY.finditer`.
`acc` holds the current partial run, reversed. -/
def tokAux : List Char → List Char → List (List Char)
  | [], acc => if acc.isEmpty then [] else [acc.reverse]
  | c :: cs, acc =>
    if isWordChar c then tokAux cs (c :: acc)
    else if acc.isEmpty then tokAux cs []
    else acc.reverse :: tokAux cs []

/-- All `\b(\w+)\b` tokens of a line, in order. -/
def tokenize (l : List Char) : List (List Char) := tokAux l []

/-- The optional receiver clause `(?:\([^)]+\)\s+)?` of `FUNC_PATTERN`:
given the text following `func\s+`, if it starts with `(`, at least one
non-`)` character, `)` and at least one whitespace character, return the
text after that whitespace run; otherwise `none`.  (When this returns
`none` and the text starts with `(`, the regex as a whole fails anyway,
because `(\w+)` cannot match `(`.) -/
def afterReceiver : List Char → Option (List Char)
  | [] => none
  | c0 :: r =>
    if c0 == '(' then
      if (r.takeWhile (fun c => !(c == ')'))).isEmpty then none
      else
        match r.dropWhile (fun c => !(c == ')')) with
        | c5 :: c :: r2 =>
          if c5 == ')' && isSpaceChar c then some ((c :: r2).dropWhile isSpaceChar)
          else none
        | _ => none
    else none

/-- The part of `FUNC_PATTERN` after the mandatory `func\s`: drop the rest of
the `\s+` run, try the optional receiver clause, then capture `(\w+)`. -/
def captureFromRest (rest : List Char) : Option (List Char) :=
  match rest with
  | c :: _ =>
    if isSpaceChar c then
      let rest2 := rest.dropWhile isSpaceChar
      let target := (afterReceiver rest2).getD rest2
      let w := target.takeWhile isWordChar
      if w.isEmpty then none else some w
    else none
  | [] => none

/-- The capture group of `FUNC_PATTERN = ^\s*func\s+(?:\([^)]+\)\s+)?(\w+)`
applied with `re.match` to one line: `some name` iff the line matches, where
`name` is the captured `(\w+)`. -/
def funcPatternCapture (cs : List Char) : Option (List Char) :=
  match cs.dropWhile isSpaceChar with
  | c1 :: c2 :: c3 :: c4 :: rest =>
    if c1 == 'f' && c2 == 'u' && c3 == 'n' && c4 == 'c' then captureFromRest rest
    else none
  | _ => none

/-- String-level wrapper of `funcPatternCapture`. -/
def lineCapture (s : String) : Option String :=
  (funcPatternCapture s.data).map (fun w => String.mk w)

/-- String-level tokens of a line. -/
def lineTokens (s : String) : List String :=
  (tokenize s.data).map (fun w => String.mk w)

/-- A source file of the scanned tree: its path components relative to the
scan root, its decoded lines (each including its trailing newline, as Python
file iteration yields them), the point at which reading it fails, and the
text of the exception rendered on failure.  `failAt = none` means the whole
file is read; `failAt = some k` means the `IOError`/`UnicodeDecodeError`
surfaces after the first `k` lines were already decoded and yielded by the
`read_file` generator (`k = 0`: the `open` itself fails). -/
structure GoFile where
  parts : List String
  lines : List String
  failAt : Option Nat
  err : String
deriving DecidableEq

/-- Rendering `str(path)` of a relative POSIX path. -/
def pathString (f : GoFile) : String := String.intercalate ("/") f.parts

/-- Model of `read_file`: yield `(index + 1, line)` for each line the
generator decodes; a failure raised at line `k` ends the sequence after the
first `k` lines have been yielded. -/
def readFile (f : GoFile) : List (Nat × String) :=
  match f.failAt with
  | none => f.lines.enum.map (fun p => (p.1 + 1, p.2))
  | some k => ((f.lines.take k).enum).map (fun p => (p.1 + 1, p.2))

/-- The `[WARN]` diagnostic `read_file` prints on stderr when reading a file
fails at any point (empty when the whole read succeeds). -/
def readWarnings (f : GoFile) : List String :=
  match f.failAt with
  | none => []
  | some _ => ["[WARN] Could not read " ++ pathString f ++ ": " ++ f.err]

/-- The same file with the read failure removed: what `read_file` would
yield if decoding succeeded throughout. -/
def withoutFailure (f : GoFile) : GoFile := ⟨f.parts, f.lines, none, f.err⟩

/-- A cleanly readable file holding only the lines decoded before the
failure point; a file failing at `k` contributes to the run exactly as this
file does. -/
def okPrefix (f : GoFile) (k : Nat) : GoFile :=
  ⟨f.parts, f.lines.take k, none, f.err⟩

/-- The `excluded_dirs` set of `find_files`. -/
def excludedDirs : List String := ["vendor", ".git", "testdata", "mocks"]

/-- Python-style string comparison `x <= y`: lexicographic on code points. -/
def dataLe : List Char → List Char → Bool
  | [], _ => true
  | _ :: _, [] => false
  | a :: as, b :: bs =>
    if a.toNat < b.toNat then true
    else if b.toNat < a.toNat then false
    else dataLe as bs

/-- Character-level `str.endswith` / suffix test. -/
def strEndsWith (s suffix : String) : Bool := suffix.data.isSuffixOf s.data

/-- Glob `*.go` matched against a file name (fnmatch: `*` matches any,
possibly empty, prefix). -/
def matchesGoGlob (f : GoFile) : Bool :=
  strEndsWith (f.parts.getLastD ("")) ".go"

/-- The filter of `find_files`: the file name matches the glob and no
component of the *full* path — the root components followed by the
root-relative components, as in `path.parts` of the absolute path walked by
`rglob` — is an excluded directory name. -/
def keepFile (root : List String) (f : GoFile) : Bool :=
  matchesGoGlob f && !((root ++ f.parts).any (fun d => decide (d ∈ excludedDirs)))

/-- Python string order on Lean strings (comparison of code-point
sequences, as CPython compares `str`). -/
def nameLe (a b : String) : Prop := dataLe a.data b.data = true

instance : DecidableRel nameLe := fun a b => by
  unfold nameLe; infer_instance

/-- Ordering of relative paths used by `sorted(results)` (POSIX `PurePath`
comparison is string comparison of the rendered path). -/
def fileLe (a b : GoFile) : Prop := nameLe (pathString a) (pathString b)

instance : DecidableRel fileLe := fun a b => by
  unfold fileLe; infer_instance

theorem dataLe_total : ∀ x y : List Char, dataLe x y = true ∨ dataLe y x = true := by
  intro x
  induction x with
  | nil => intro y; left; cases y <;> rfl
  | cons a as ih =>
    intro y
    cases y with
    | nil => right; rfl
    | cons b bs =>
      rcases Nat.lt_trichotomy a.toNat b.toNat with h | h | h
      · left; simp [dataLe, h]
      · have h1 : ¬ a.toNat < b.toNat := by omega
        have h2 : ¬ b.toNat < a.toNat := by omega
        rcases ih bs with hx | hx
        · left; simp [dataLe, h1, h2, hx]
        · right; simp [dataLe, h1, h2, hx]
      · right; simp [dataLe, h]

theorem dataLe_trans :
    ∀ x y z : List Char, dataLe x y = true → dataLe y z = true →
      dataLe x z = true := by
  intro x
  induction x with
  | nil => intro y z _ _; rfl
  | cons a as ih =>
    intro y z hxy hyz
    cases y with
    | nil => simp [dataLe] at hxy
    | cons b bs =>
      cases z with
      | nil => simp [dataLe] at hyz
      | cons c cs =>
        rcases Nat.lt_trichotomy a.toNat b.toNat with hab | hab | hab <;>
          rcases Nat.lt_trichotomy b.toNat c.toNat with hbc | hbc | hbc
        · simp [dataLe, show a.toNat < c.toNat by omega]
        · simp [dataLe, show a.toNat < c.toNat by omega]
        · rw [dataLe, if_neg (by omega), if_pos hbc] at hyz
          exact absurd hyz (by simp)
        · simp [dataLe, show a.toNat < c.toNat by omega]
        · rw [dataLe, if_neg (by omega), if_neg (by omega)] at hxy
          rw [dataLe, if_neg (by omega), if_neg (by omega)] at hyz
          rw [dataLe, if_neg (by omega), if_neg (by omega)]
          exact ih bs cs hxy hyz
        · rw [dataLe, if_neg (by omega), if_pos hbc] at hyz
          exact absurd hyz (by simp)
        · rw [dataLe, if_neg (by omega), if_pos hab] at hxy
          exact absurd hxy (by simp)
        · rw [dataLe, if_neg (by omega), if_pos hab] at hxy
          exact absurd hxy (by simp)
        · rw [dataLe, if_neg (by omega), if_pos hab] at hxy
          exact absurd hxy (by simp)

theorem char_eq_of_toNat_eq {a b : Char} (h : a.toNat = b.toNat) : a = b :=
  Char.ext (UInt32.ext h)

theorem dataLe_antisymm :
    ∀ x y : List Char, dataLe x y = true → dataLe y x = true → x = y := by
  intro x
  induction x with
  | nil => intro y _ hyx; cases y with
    | nil => rfl
    | cons b bs => simp [dataLe] at hyx
  | cons a as ih =>
    intro y hxy hyx
    cases y with
    | nil => simp [dataLe] at hxy
    | cons b bs =>
      rcases Nat.lt_trichotomy a.toNat b.toNat with hab | hab | hab
      · rw [dataLe, if_neg (by omega), if_pos hab] at hyx
        exact absurd hyx (by simp)
      · rw [dataLe, if_neg (by omega), if_neg (by omega)] at hxy
        rw [dataLe, if_neg (by omega), if_neg (by omega)] at hyx
        rw [char_eq_of_toNat_eq hab, ih bs hxy hyx]
      · rw [dataLe, if_neg (by omega), if_pos hab] at hxy
        exact absurd hxy (by simp)

theorem nameLe_total (a b : String) : nameLe a b ∨ nameLe b a :=
  dataLe_total a.data b.data

theorem nameLe_trans {a b c : String} (h₁ : nameLe a b) (h₂ : nameLe b c) :
    nameLe a c :=
  dataLe_trans a.data b.data c.data h₁ h₂

theorem string_data_inj {a b : String} (h : a.data = b.data) : a = b := by
  cases a; cases b; exact congrArg String.mk h

theorem nameLe_antisymm {a b : String} (h₁ : nameLe a b) (h₂ : nameLe b a) :
    a = b :=
  string_data_inj (dataLe_antisymm a.data b.data h₁ h₂)

instance : IsTotal String nameLe := ⟨nameLe_total⟩

instance : IsTrans String nameLe := ⟨fun _ _ _ h₁ h₂ => nameLe_trans h₁ h₂⟩

instance : IsTotal GoFile fileLe := ⟨fun x y => nameLe_total (pathString x) (pathString y)⟩

instance : IsTrans GoFile fileLe := ⟨fun _ _ _ h₁ h₂ => nameLe_trans h₁ h₂⟩

/-- Model of `find_files`: keep the matching, non-excluded files of the tree and sort
them by relative path.  (Paths in a real tree are pairwise distinct, so the
choice of a stable-vs-unstable sort is unobservable.) -/
def findFiles (root : List String) (tree : List GoFile) : List GoFile :=
  List.insertionSort fileLe (tree.filter (keepFile root))

/-- All captured definition names, in scan order (with repetitions, one per
matching line). -/
def rawNames (files : List GoFile) : List String :=
  files.flatMap (fun f => (readFile f).filterMap (fun p => lineCapture p.2))

/-- The keys of the `functions` dict: each extracted name once. -/
def uniqueNames (files : List GoFile) : List String :=
  (rawNames files).dedup

/-- Iteration order of `sorted(functions.items())`: names in ascending string order. -/
def sortedNames (files : List GoFile) : List String :=
  List.insertionSort nameLe (uniqueNames files)

/-- Lookup `functions[name]`: the definition sites `(str(filename), line number)`
of a name, in scan order. -/
def defSites (files : List GoFile) (name : String) : List (String × Nat) :=
  files.flatMap (fun f =>
    (readFile f).filterMap (fun p =>
      if lineCapture p.2 = some name then some (pathString f, p.1) else none))

/-- Contribution of one line to `counters[name]`: the number of tokens of the
line that equal `name`, counted only when `name` is in the scanned symbol
set (the scanner increments a counter only for tokens found in `func_set`). -/
def lineHits (funcSet : List String) (name : String) (s : String) : Nat :=
  ((lineTokens s).filter (fun w => decide (w ∈ funcSet))).count name

/-- Value of `counters[name]` after `count_references`. -/
def refCount (files : List GoFile) (funcSet : List String) (name : String) : Nat :=
  ((files.flatMap readFile).map (fun p => lineHits funcSet name p.2)).sum

/-- Python `str.strip()` (ASCII whitespace model). -/
def pyStrip (s : String) : String :=
  String.mk (((s.data.dropWhile isSpaceChar).reverse.dropWhile isSpaceChar).reverse)

/-- Snippet `line.strip()[:80]` as stored in a stored in a `ReferenceRecord`. -/
def snippet80 (s : String) : String := String.mk ((pyStrip s).data.take 80)

/-- Records `references[name]`: one `(file:line, snippet)` record per counted token,
in scan order. -/
def refRecords (files : List GoFile) (funcSet : List String) (name : String) :
    List (String × String) :=
  files.flatMap (fun f =>
    (readFile f).flatMap (fun p =>
      ((lineTokens p.2).filter (fun w => w == name && decide (w ∈ funcSet))).map
        (fun _ => (pathString f ++ ":" ++ toString p.1, snippet80 p.2))))

/-- Python `s.startswith(pre)`: `pre` is a character prefix of `s`. -/
def strStartsWith (s pre : String) : Bool := pre.data.isPrefixOf s.data

/-- Test `func_name[0].isupper()` (ASCII model; extracted names are nonempty). -/
def isExportedName (s : String) : Bool :=
  match s.data with
  | [] => false
  | c :: _ => c.isUpper

/-- The flags parsed by `main` (already typed: `argparse` has established
`max_refs` as an integer; no further validation exists in the script). -/
structure Config where
  verbose : Bool
  maxRefs : Int
  includeExported : Bool
  includeTests : Bool
  summary : Bool
  showRefs : Bool
  allLowUsage : Bool
deriving DecidableEq

/-- The three `continue` guards of the analysis loop in `process`: test
prefix (unless `--include-tests`), exported convention (unless
`--include-exported`), and the fixed conventional names. -/
def isSkipped (cfg : Config) (name : String) : Bool :=
  (!cfg.includeTests && strStartsWith name ("Test"))
  || (!cfg.includeExported && isExportedName name)
  || (name == "init" || name == "main" || name == "String" || name == "Error")

/-- Outcome of the threshold test of `process` for one symbol. -/
inductive Category where
  | Dead : Category
  | LowUsage : Int → Category
  | Normal : Category
deriving DecidableEq

/-- The `if ref_count <= def_count / elif ref_count <= max_refs + def_count`
test of `process`; the `LowUsage` payload is the `actual_refs =
ref_count - def_count` shown by the renderer. -/
def classify (maxRefs : Int) (refCt defCt : Nat) : Category :=
  if refCt ≤ defCt then Category.Dead
  else if (refCt : Int) ≤ maxRefs + (defCt : Int) then
    Category.LowUsage ((refCt : Int) - (defCt : Int))
  else Category.Normal

/-- Whether the loop appends `name` to `dead_candidates`. -/
def deadPred (cfg : Config) (files : List GoFile) (name : String) : Bool :=
  !isSkipped cfg name &&
    decide (classify cfg.maxRefs (refCount files (uniqueNames files) name)
      (defSites files name).length = Category.Dead)

/-- Whether the loop appends `name` to `low_usage`. -/
def lowPred (cfg : Config) (files : List GoFile) (name : String) : Bool :=
  !isSkipped cfg name &&
    decide (classify cfg.maxRefs (refCount files (uniqueNames files) name)
      (defSites files name).length
      = Category.LowUsage
          ((refCount files (uniqueNames files) name : Int)
            - ((defSites files name).length : Int)))

/-- The `dead_candidates` list: `(func_name, ref_count, definitions)` in name order. -/
def deadList (cfg : Config) (files : List GoFile) :
    List (String × Nat × List (String × Nat)) :=
  ((sortedNames files).filter (deadPred cfg files)).map
    (fun n => (n, refCount files (uniqueNames files) n, defSites files n))

/-- The `low_usage` list: `(func_name, ref_count, def_count, definitions)` in name
order. -/
def lowList (cfg : Config) (files : List GoFile) :
    List (String × Nat × Nat × List (String × Nat)) :=
  ((sortedNames files).filter (lowPred cfg files)).map
    (fun n => (n, refCount files (uniqueNames files) n,
      (defSites files n).length, defSites files n))

/-- Separator `"=" * 70` or `"─" * 70`. -/
def sep70 (c : Char) : String := String.mk (List.replicate 70 c)

/-- Formatting of the line number: decimal rendering left-justified to width 6. -/
def padL6 (n : Nat) : String :=
  (toString n).pushn ' ' (6 - (toString n).length)

/-- The report banner and statistics block (printed before the
summary-mode early return). -/
def bannerLines (cfg : Config) (files : List GoFile) : List String :=
  ["\n" ++ sep70 '=',
   "DEAD CODE ANALYSIS REPORT",
   sep70 '=',
   "\nStatistics:",
   "  - Go files scanned:      " ++ toString files.length,
   "  - Functions found:       " ++ toString (uniqueNames files).length,
   "  - Potentially dead:      " ++ toString (deadList cfg files).length,
   "  - Low usage (≤" ++ toString cfg.maxRefs ++ " refs): "
     ++ toString (lowList cfg files).length]

/-- The reference listing printed under a symbol when `--show-refs` is set. -/
def refBlock (hdr : String) (recs : List (String × String)) : List String :=
  [hdr] ++ recs.flatMap (fun r => ["      " ++ r.1, "        → " ++ r.2]) ++ [""]

/-- Output lines for one dead candidate. -/
def deadEntryLines (cfg : Config) (files : List GoFile)
    (e : String × Nat × List (String × Nat)) : List String :=
  (e.2.2.map (fun d => "  " ++ d.1 ++ ":" ++ padL6 d.2 ++ " " ++ e.1))
  ++ (if cfg.showRefs && !(refRecords files (uniqueNames files) e.1).isEmpty then
        refBlock ("    References ("
            ++ toString (refRecords files (uniqueNames files) e.1).length ++ "):")
          (refRecords files (uniqueNames files) e.1)
      else [])

/-- The `POTENTIALLY DEAD CODE` section (or its replacement line). -/
def deadSection (cfg : Config) (files : List GoFile) : List String :=
  if (deadList cfg files).isEmpty then ["\n✓ No dead code candidates found!"]
  else
    ["\n" ++ sep70 '─',
     "POTENTIALLY DEAD CODE (only referenced at definition)",
     sep70 '─']
    ++ (deadList cfg files).flatMap (deadEntryLines cfg files)

/-- Output lines for one low-usage entry. -/
def lowEntryLines (cfg : Config) (files : List GoFile)
    (e : String × Nat × Nat × List (String × Nat)) : List String :=
  (e.2.2.2.map (fun d => "  " ++ d.1 ++ ":" ++ padL6 d.2 ++ " " ++ e.1
    ++ " (" ++ toString ((e.2.1 : Int) - (e.2.2.1 : Int)) ++ " refs)"))
  ++ (if cfg.showRefs && !(refRecords files (uniqueNames files) e.1).isEmpty then
        refBlock ("    All references ("
            ++ toString (refRecords files (uniqueNames files) e.1).length ++ "):")
          (refRecords files (uniqueNames files) e.1)
      else [])

/-- The `LOW USAGE FUNCTIONS` section (empty when there are no entries). -/
def lowSection (cfg : Config) (files : List GoFile) : List String :=
  if (lowList cfg files).isEmpty then []
  else
    ["\n" ++ sep70 '─',
     "LOW USAGE FUNCTIONS (≤" ++ toString cfg.maxRefs
       ++ " references beyond definition)",
     sep70 '─']
    ++ ((lowList cfg files).take
          (if cfg.allLowUsage then (lowList cfg files).length
           else min 20 (lowList cfg files).length)).flatMap
        (lowEntryLines cfg files)
    ++ (if !cfg.allLowUsage && decide (20 < (lowList cfg files).length) then
          ["  ... and " ++ toString ((lowList cfg files).length - 20)
            ++ " more (use --all-low-usage to show all)"]
        else [])

/-- The first line of the closing caveat block. -/
def caveatNote : String :=
  "NOTE: Exported functions (capitalized) are excluded by default."

/-- The closing caveat block, printed after the detail sections. -/
def caveatLines : List String :=
  ["\n" ++ sep70 '=',
   caveatNote,
   "      Use --include-exported to include them.",
   "      False positives may occur for reflection, interfaces, or external usage.",
   sep70 '=' ++ "\n"]

/-- All stdout lines of `process` once the two early-error checks have
passed: banner and statistics, then — unless `--summary` returned early —
the detail sections and the caveat block. -/
def reportLines (cfg : Config) (files : List GoFile) : List String :=
  bannerLines cfg files
  ++ (if cfg.summary then []
      else deadSection cfg files ++ lowSection cfg files ++ caveatLines)

/-- stdout of `process` as a function of the sorted file list. -/
def pipelineOut (cfg : Config) (files : List GoFile) : List String :=
  if files.isEmpty then []
  else if (uniqueNames files).isEmpty then []
  else reportLines cfg files

/-- Model of `log`: one `[INFO]` stderr line when verbose, nothing otherwise. -/
def logIf (v : Bool) (msg : String) : List String :=
  if v then ["[INFO] " ++ msg] else []

/-- stderr lines of the reference-counting pass: every 50th file a progress
line when verbose, plus the read warnings of each file. -/
def pass2Err (v : Bool) (total : Nat) (files : List GoFile) : List String :=
  files.enum.flatMap (fun p =>
    (if v && (p.1 + 1) % 50 == 0 then
       ["[INFO] Scanning file " ++ toString (p.1 + 1) ++ "/" ++ toString total
         ++ ": " ++ pathString p.2]
     else [])
    ++ readWarnings p.2)

/-- stderr of `process` as a function of the sorted file list. -/
def pipelineErr (cfg : Config) (files : List GoFile) : List String :=
  logIf cfg.verbose ("Starting dead code detection...")
  ++ logIf cfg.verbose ("Found " ++ toString files.length ++ " Go files")
  ++ (if files.isEmpty then ["[ERROR] No Go files found in current directory"]
      else
        files.flatMap readWarnings
        ++ logIf cfg.verbose ("Found " ++ toString (uniqueNames files).length
            ++ " unique function/method names")
        ++ (if (uniqueNames files).isEmpty then ["[ERROR] No functions found"]
            else pass2Err cfg.verbose files.length files
              ++ logIf cfg.verbose ("Scanned " ++ toString files.length
                  ++ " files for references")))

/-- One run of `process` over the tree rooted at `root` (whose own path
components are `root`): stdout lines and stderr lines. -/
def processRun (cfg : Config) (root : List String) (tree : List GoFile) :
    List String × List String :=
  (pipelineOut cfg (findFiles root tree), pipelineErr cfg (findFiles root tree))

/-- stdout of one run. -/
def processOut (cfg : Config) (root : List String) (tree : List GoFile) :
    List String :=
  (processRun cfg root tree).1

/-- stderr of one run. -/
def processErr (cfg : Config) (root : List String) (tree : List GoFile) :
    List String :=
  (processRun cfg root tree).2

/-! ### Concrete fixtures used by witnesses and counterexamples -/

/-- A readable file with a locally used `helper` and a dead `caller`. -/
def fileA : GoFile :=
  ⟨["a.go"], ["func helper() \x7b\x7d\n", "func caller() \x7b\n", "\thelper()\n", "\x7d\n"],
   none, ""⟩

/-- A readable file that contains no function definition. -/
def fileNoFunc : GoFile := ⟨["b.go"], ["package main\n"], none, ""⟩

/-- A file whose UTF-8 decoding fails while it is being read: the first line
has already been decoded and yielded when the error surfaces. -/
def fileMid : GoFile :=
  ⟨["d.go"], ["func zzz() \x7b\x7d\n", "func www() \x7b\x7d\n"], some 1,
   "invalid start byte"⟩

/-- The default flag values of `main`. -/
def cfg0 : Config := ⟨false, 1, false, false, false, false, false⟩

/-! ### Tokenizer lemmas -/

theorem not_word_of_space {c : Char} (h : isSpaceChar c = true) :
    isWordChar c = false := by
  have h6 : c = ' ' ∨ c = '\t' ∨ c = '\n' ∨ c = '\r' ∨ c = '\x0b' ∨ c = '\x0c' := by
    simpa [isSpaceChar, or_assoc] using h
  rcases h6 with h1 | h1 | h1 | h1 | h1 | h1 <;> subst h1 <;> decide

theorem dropWhile_head_false {α : Type} (p : α → Bool) :
    ∀ (l : List α) (c : α) (t : List α), l.dropWhile p = c :: t → p c = false := by
  intro l
  induction l with
  | nil => intro c t h; simp [List.dropWhile] at h
  | cons a l ih =>
    intro c t h
    by_cases pa : p a = true
    · rw [List.dropWhile_cons_of_pos pa] at h
      exact ih c t h
    · rw [List.dropWhile_cons_of_neg pa] at h
      cases h
      exact Bool.of_not_eq_true pa

theorem tokAux_append_nonword (c : Char) (hc : isWordChar c = false) :
    ∀ (l : List Char) (acc r : List Char),
      tokAux (l ++ c :: r) acc = tokAux l acc ++ tokAux r [] := by
  intro l
  induction l with
  | nil =>
    intro acc r
    by_cases ha : acc.isEmpty
    · simp [tokAux, hc, ha]
    · simp [tokAux, hc, ha]
  | cons a l ih =>
    intro acc r
    by_cases wa : isWordChar a = true
    · simp only [List.cons_append, tokAux, wa, if_true, List.append_eq]
      exact ih (a :: acc) r
    · rw [Bool.not_eq_true] at wa
      by_cases ha : acc.isEmpty
      · simp only [List.cons_append, tokAux, wa, Bool.false_eq_true, if_false, ha,
          if_true, List.append_eq]
        exact ih [] r
      · simp only [List.cons_append, tokAux, wa, Bool.false_eq_true, if_false, ha,
          if_false, List.cons_append, List.append_eq]
        rw [ih [] r]

theorem tokAux_word_run :
    ∀ (w : List Char), (∀ c ∈ w, isWordChar c = true) →
      ∀ (rest acc : List Char),
        tokAux (w ++ rest) acc = tokAux rest (w.reverse ++ acc) := by
  intro w
  induction w with
  | nil => intro _ rest acc; simp
  | cons a w ih =>
    intro h rest acc
    have ha : isWordChar a = true := h a (List.mem_cons_self a w)
    simp only [List.cons_append, tokAux, ha, if_true, List.append_eq]
    rw [ih (fun c hc => h c (List.mem_cons_of_mem a hc)) rest (a :: acc)]
    simp

theorem tokAux_nonword_front :
    ∀ (sp : List Char), (∀ c ∈ sp, isWordChar c = false) →
      ∀ (l : List Char), tokAux (sp ++ l) [] = tokAux l [] := by
  intro sp
  induction sp with
  | nil => intro _ l; simp
  | cons a sp ih =>
    intro h l
    have ha : isWordChar a = false := h a (List.mem_cons_self a sp)
    simp only [List.cons_append, tokAux, ha, Bool.false_eq_true, if_false,
      List.isEmpty_nil, if_true]
    exact ih (fun c hc => h c (List.mem_cons_of_mem a hc)) l

theorem tokAux_drop_spaces (l : List Char) :
    tokAux l [] = tokAux (l.dropWhile isSpaceChar) [] := by
  conv_lhs => rw [← List.takeWhile_append_dropWhile isSpaceChar l]
  exact tokAux_nonword_front _
    (fun c hc => not_word_of_space (List.mem_takeWhile_imp hc)) _

theorem takeWhile_mem_tokAux (t : List Char)
    (h : t.takeWhile isWordChar ≠ []) :
    t.takeWhile isWordChar ∈ tokAux t [] := by
  have h1 : tokAux t [] = tokAux (t.takeWhile isWordChar ++ t.dropWhile isWordChar) [] := by
    rw [List.takeWhile_append_dropWhile]
  rw [h1, tokAux_word_run (t.takeWhile isWordChar)
    (fun c hc => List.mem_takeWhile_imp hc) (t.dropWhile isWordChar) [],
    List.append_nil]
  have hrev : (t.takeWhile isWordChar).reverse ≠ [] := by
    simpa using h
  cases hd : t.dropWhile isWordChar with
  | nil =>
    simp [tokAux, List.isEmpty_iff, hrev]
  | cons c t' =>
    have hc : isWordChar c = false := dropWhile_head_false isWordChar t c t' hd
    simp [tokAux, hc, List.isEmpty_iff, hrev]

theorem afterReceiver_eq_some {l t : List Char} (h : afterReceiver l = some t) :
    ∃ r c r2, l = '(' :: r ∧
      r.dropWhile (fun x => !(x == ')')) = ')' :: c :: r2 ∧
      isSpaceChar c = true ∧ t = (c :: r2).dropWhile isSpaceChar := by
  cases l with
  | nil => simp [afterReceiver] at h
  | cons c0 r =>
    simp only [afterReceiver] at h
    by_cases h0 : (c0 == '(') = true
    · rw [if_pos h0] at h
      by_cases hin : (r.takeWhile (fun x => !(x == ')'))).isEmpty = true
      · rw [if_pos hin] at h; exact absurd h (by simp)
      · rw [if_neg hin] at h
        cases hd : r.dropWhile (fun x => !(x == ')')) with
        | nil => rw [hd] at h; simp at h
        | cons c5 rest =>
          cases rest with
          | nil => rw [hd] at h; simp at h
          | cons c r2 =>
            rw [hd] at h
            simp only [] at h
            by_cases hcs : (c5 == ')' && isSpaceChar c) = true
            · rw [if_pos hcs] at h
              rw [Option.some_inj] at h
              rw [Bool.and_eq_true] at hcs
              refine ⟨r, c, r2, ?_, ?_, hcs.2, h.symm⟩
              · rw [beq_iff_eq.mp h0]
              · rw [hd, beq_iff_eq.mp hcs.1]
            · rw [if_neg hcs] at h; simp at h
    · rw [if_neg h0] at h; simp at h

theorem captureFromRest_mem {rest w : List Char}
    (h : captureFromRest rest = some w) :
    (∀ acc, w ∈ tokAux rest acc) ∧ w ≠ [] := by
  cases rest with
  | nil => simp [captureFromRest] at h
  | cons c rest' =>
    simp only [captureFromRest] at h
    by_cases hsp : isSpaceChar c = true
    · rw [if_pos hsp] at h
      by_cases hne :
          (((afterReceiver ((c :: rest').dropWhile isSpaceChar)).getD
            ((c :: rest').dropWhile isSpaceChar)).takeWhile isWordChar).isEmpty = true
      · rw [if_pos hne] at h; exact absurd h (by simp)
      · rw [if_neg hne] at h
        rw [Option.some_inj] at h
        rw [List.isEmpty_iff] at hne
        subst h
        have hw : ((afterReceiver ((c :: rest').dropWhile isSpaceChar)).getD
            ((c :: rest').dropWhile isSpaceChar)).takeWhile isWordChar
            ∈ tokAux rest' [] := by
          have hdrop : (c :: rest').dropWhile isSpaceChar
              = rest'.dropWhile isSpaceChar := by
            rw [List.dropWhile_cons_of_pos hsp]
          rw [hdrop]
          cases har : afterReceiver (rest'.dropWhile isSpaceChar) with
          | none =>
            simp only [har, Option.getD_none]
            rw [tokAux_drop_spaces rest']
            exact takeWhile_mem_tokAux _ (by
              rw [hdrop, har] at hne
              simpa using hne)
          | some t =>
            simp only [har, Option.getD_some]
            obtain ⟨r, c', r2, hshape, hdw, hsp', ht⟩ := afterReceiver_eq_some har
            rw [tokAux_drop_spaces rest', hshape]
            have hwp : isWordChar '(' = false := by decide
            have : tokAux ('(' :: r) [] = tokAux r [] := by
              simp [tokAux, hwp]
            rw [this]
            have hrsplit : r = r.takeWhile (fun x => !(x == ')'))
                ++ (')' :: c' :: r2) := by
              conv_lhs => rw [← List.takeWhile_append_dropWhile
                (fun x => !(x == ')')) r]
              rw [hdw]
            rw [hrsplit, tokAux_append_nonword ')' (by decide)]
            have hc'r2 : tokAux (c' :: r2) [] = tokAux t [] := by
              rw [tokAux_drop_spaces (c' :: r2), ← ht]
            refine List.mem_append_right _ ?_
            rw [hc'r2]
            exact takeWhile_mem_tokAux _ (by
              rw [hdrop, har] at hne
              simpa using hne)
        constructor
        · intro acc
          have hcw : isWordChar c = false := not_word_of_space hsp
          by_cases ha : acc.isEmpty = true
          · have : tokAux (c :: rest') acc = tokAux rest' [] := by
              simp [tokAux, hcw, ha]
            rw [this]; exact hw
          · have : tokAux (c :: rest') acc = acc.reverse :: tokAux rest' [] := by
              simp [tokAux, hcw, ha]
            rw [this]
            exact List.mem_cons_of_mem _ hw
        · exact hne
    · rw [if_neg hsp] at h; simp at h

theorem capture_mem_tokenize {cs w : List Char}
    (h : funcPatternCapture cs = some w) : w ∈ tokenize cs := by
  unfold funcPatternCapture at h
  split at h
  next c1 c2 c3 c4 rest heq =>
    by_cases hf : (c1 == 'f' && c2 == 'u' && c3 == 'n' && c4 == 'c') = true
    · rw [if_pos hf] at h
      simp only [Bool.and_eq_true, beq_iff_eq] at hf
      obtain ⟨⟨⟨h1, h2⟩, h3⟩, h4⟩ := hf
      subst h1; subst h2; subst h3; subst h4
      have hmem := captureFromRest_mem h
      unfold tokenize
      rw [tokAux_drop_spaces cs, heq]
      have hrun : tokAux ('f' :: 'u' :: 'n' :: 'c' :: rest) []
          = tokAux rest ['c', 'n', 'u', 'f'] := by
        have hx := tokAux_word_run ['f', 'u', 'n', 'c'] (by decide) rest []
        simpa using hx
      rw [hrun]
      exact hmem.1 _
    · rw [if_neg hf] at h; simp at h
  next => simp at h

theorem lineCapture_mem_lineTokens {s n : String}
    (h : lineCapture s = some n) : n ∈ lineTokens s := by
  unfold lineCapture at h
  cases hc : funcPatternCapture s.data with
  | none => rw [hc] at h; simp at h
  | some w =>
    rw [hc] at h
    simp only [Option.map_some', Option.some_inj] at h
    subst h
    exact List.mem_map_of_mem _ (capture_mem_tokenize hc)

theorem one_le_lineHits {funcSet : List String} {name s : String}
    (hset : name ∈ funcSet) (h : lineCapture s = some name) :
    1 ≤ lineHits funcSet name s := by
  unfold lineHits
  have hmem : name ∈ (lineTokens s).filter (fun w => decide (w ∈ funcSet)) :=
    List.mem_filter.mpr ⟨lineCapture_mem_lineTokens h, by simpa using hset⟩
  exact List.count_pos_iff.mpr hmem

theorem defLines_le_hits (funcSet : List String) (name : String)
    (hset : name ∈ funcSet) (path : String) :
    ∀ lines : List (Nat × String),
      (lines.filterMap (fun p =>
        if lineCapture p.2 = some name then some (path, p.1) else none)).length
      ≤ (lines.map (fun p => lineHits funcSet name p.2)).sum := by
  intro lines
  induction lines with
  | nil => simp
  | cons p lines ih =>
    by_cases hc : lineCapture p.2 = some name
    · have hfa : (if lineCapture p.2 = some name then some (path, p.1) else none)
          = some (path, p.1) := if_pos hc
      rw [@List.filterMap_cons_some _ _
          (fun q : Nat × String =>
            if lineCapture q.2 = some name then some (path, q.1) else none)
          p lines (path, p.1) hfa,
        List.map_cons, List.sum_cons, List.length_cons]
      have h1 := one_le_lineHits hset hc
      omega
    · have hfa : (if lineCapture p.2 = some name then some (path, p.1) else none)
          = (none : Option (String × Nat)) := if_neg hc
      rw [@List.filterMap_cons_none _ _
          (fun q : Nat × String =>
            if lineCapture q.2 = some name then some (path, q.1) else none)
          p lines hfa,
        List.map_cons, List.sum_cons]
      omega

theorem defSites_length_le_refCount (funcSet : List String) (name : String)
    (hset : name ∈ funcSet) :
    ∀ files : List GoFile,
      (defSites files name).length ≤ refCount files funcSet name := by
  intro files
  induction files with
  | nil => simp [defSites, refCount]
  | cons f files ih =>
    have hd : defSites (f :: files) name
        = ((readFile f).filterMap (fun p =>
            if lineCapture p.2 = some name then some (pathString f, p.1) else none))
          ++ defSites files name := by
      simp [defSites]
    have hr : refCount (f :: files) funcSet name
        = ((readFile f).map (fun p => lineHits funcSet name p.2)).sum
          + refCount files funcSet name := by
      simp [refCount]
    rw [hd, hr, List.length_append]
    exact Nat.add_le_add (defLines_le_hits funcSet name hset (pathString f) _) ih

theorem sorted_perm_nodup_key_eq {α : Type} (key : α → String) :
    ∀ l₁ l₂ : List α, l₁.Perm l₂ →
      List.Sorted (fun a b => nameLe (key a) (key b)) l₁ →
      List.Sorted (fun a b => nameLe (key a) (key b)) l₂ →
      (l₁.map key).Nodup → l₁ = l₂ := by
  intro l₁
  induction l₁ with
  | nil =>
    intro l₂ hp _ _ _
    exact (List.Perm.nil_eq hp).symm ▸ rfl
  | cons a t₁ ih =>
    intro l₂ hp hs₁ hs₂ hnd
    cases l₂ with
    | nil => exact absurd hp.symm (by simp)
    | cons b t₂ =>
      have hab : a = b := by
        have hbmem : b ∈ a :: t₁ := hp.symm.subset (List.mem_cons_self b t₂)
        rcases List.mem_cons.mp hbmem with hba | hbt
        · exact hba.symm
        · have hamem : a ∈ b :: t₂ := hp.subset (List.mem_cons_self a t₁)
          rcases List.mem_cons.mp hamem with hab | hat
          · exact hab
          · have h1 : nameLe (key a) (key b) := (List.pairwise_cons.mp hs₁).1 b hbt
            have h2 : nameLe (key b) (key a) := (List.pairwise_cons.mp hs₂).1 a hat
            have hk : key a = key b := nameLe_antisymm h1 h2
            have hkm : key a ∈ t₁.map key := by
              rw [hk]; exact List.mem_map_of_mem key hbt
            rw [List.map_cons, List.nodup_cons] at hnd
            exact absurd hkm hnd.1
      subst hab
      have ht : t₁ = t₂ := by
        rw [List.map_cons, List.nodup_cons] at hnd
        exact ih t₂ hp.cons_inv hs₁.of_cons hs₂.of_cons hnd.2
      rw [ht]

theorem findFiles_sorted (root : List String) (tree : List GoFile) :
    List.Sorted fileLe (findFiles root tree) :=
  List.sorted_insertionSort fileLe _

theorem findFiles_perm (root : List String) (tree : List GoFile) :
    (findFiles root tree).Perm (tree.filter (keepFile root)) :=
  List.perm_insertionSort fileLe _

theorem findFiles_perm_eq {root : List String} {t₁ t₂ : List GoFile}
    (hp : t₁.Perm t₂) (hnd : (t₁.map pathString).Nodup) :
    findFiles root t₁ = findFiles root t₂ := by
  have hkeep : (t₁.filter (keepFile root)).Perm (t₂.filter (keepFile root)) :=
    hp.filter _
  have hperm : (findFiles root t₁).Perm (findFiles root t₂) :=
    (findFiles_perm root t₁).trans (hkeep.trans (findFiles_perm root t₂).symm)
  have hnd₁ : ((findFiles root t₁).map pathString).Nodup := by
    have hsub : ((t₁.filter (keepFile root)).map pathString).Sublist
        (t₁.map pathString) := (List.filter_sublist t₁).map pathString
    have hnf : ((t₁.filter (keepFile root)).map pathString).Nodup :=
      hsub.nodup hnd
    exact ((findFiles_perm root t₁).map pathString).nodup_iff.mpr hnf
  exact sorted_perm_nodup_key_eq pathString _ _ hperm
    (findFiles_sorted root t₁) (findFiles_sorted root t₂) hnd₁

theorem enumFrom_take {α : Type} :
    ∀ (l : List α) (n k : Nat),
      (l.take k).enumFrom n = (l.enumFrom n).take k := by
  intro l
  induction l with
  | nil => intro n k; simp
  | cons a t ih =>
    intro n k
    cases k with
    | zero => simp
    | succ k => simp [List.enumFrom, List.take, ih (n + 1) k]

theorem enum_take {α : Type} (l : List α) (k : Nat) :
    (l.take k).enum = l.enum.take k := by
  simp [List.enum, enumFrom_take]

theorem readFile_okPrefix {f : GoFile} {k : Nat} (hf : f.failAt = some k) :
    readFile f = readFile (okPrefix f k) := by
  simp [readFile, hf, okPrefix]

theorem readFile_take {f : GoFile} {k : Nat} (hf : f.failAt = some k) :
    readFile f = (readFile (withoutFailure f)).take k := by
  simp only [readFile, hf, withoutFailure]
  rw [enum_take, List.map_take]

theorem readFile_fail_zero {f : GoFile} (hf : f.failAt = some 0) :
    readFile f = [] := by
  simp [readFile, hf]

theorem defSites_congr_file {f g : GoFile} (hr : readFile f = readFile g)
    (hp : pathString f = pathString g) (pre post : List GoFile)
    (name : String) :
    defSites (pre ++ f :: post) name = defSites (pre ++ g :: post) name := by
  simp only [defSites, List.flatMap_append, List.flatMap_cons]
  rw [hr, hp]

theorem refCount_congr_file {f g : GoFile} (hr : readFile f = readFile g)
    (pre post : List GoFile) (funcSet : List String) (name : String) :
    refCount (pre ++ f :: post) funcSet name
      = refCount (pre ++ g :: post) funcSet name := by
  simp only [refCount, List.flatMap_append, List.flatMap_cons]
  rw [hr]

theorem uniqueNames_congr_file {f g : GoFile} (hr : readFile f = readFile g)
    (pre post : List GoFile) :
    uniqueNames (pre ++ f :: post) = uniqueNames (pre ++ g :: post) := by
  simp only [uniqueNames, rawNames, List.flatMap_append, List.flatMap_cons]
  rw [hr]

theorem not_mem_deadList_of_skipped {cfg : Config} {files : List GoFile}
    {name : String} (h : isSkipped cfg name = true) :
    ∀ (rc : Nat) (ds : List (String × Nat)), (name, rc, ds) ∉ deadList cfg files := by
  intro rc ds hmem
  unfold deadList at hmem
  obtain ⟨n, hn, heq⟩ := List.mem_map.mp hmem
  obtain ⟨hn1, hn2⟩ := List.mem_filter.mp hn
  have hname : n = name := (Prod.mk.injEq _ _ _ _).mp heq |>.1
  subst hname
  unfold deadPred at hn2
  rw [h] at hn2
  simp at hn2

theorem not_mem_lowList_of_skipped {cfg : Config} {files : List GoFile}
    {name : String} (h : isSkipped cfg name = true) :
    ∀ (rc dc : Nat) (ds : List (String × Nat)),
      (name, rc, dc, ds) ∉ lowList cfg files := by
  intro rc dc ds hmem
  unfold lowList at hmem
  obtain ⟨n, hn, heq⟩ := List.mem_map.mp hmem
  obtain ⟨hn1, hn2⟩ := List.mem_filter.mp hn
  have hname : n = name := (Prod.mk.injEq _ _ _ _).mp heq |>.1
  subst hname
  unfold lowPred at hn2
  rw [h] at hn2
  simp at hn2

theorem exported_of_test_start {name : String}
    (h : strStartsWith name ("Test") = true) : isExportedName name = true := by
  unfold strStartsWith at h
  cases hd : name.data with
  | nil => rw [hd] at h; simp [List.isPrefixOf] at h
  | cons c t =>
    rw [hd] at h
    simp only [List.isPrefixOf, Bool.and_eq_true, beq_iff_eq] at h
    obtain ⟨hc, _⟩ := h
    unfold isExportedName
    rw [hd, ← hc]
    exact rfl

theorem mem_deadList_iff {cfg : Config} {files : List GoFile} {name : String}
    (hskip : isSkipped cfg name = false) (hmem : name ∈ sortedNames files) :
    (name, refCount files (uniqueNames files) name, defSites files name)
        ∈ deadList cfg files
      ↔ classify cfg.maxRefs (refCount files (uniqueNames files) name)
          (defSites files name).length = Category.Dead := by
  constructor
  · intro hm
    unfold deadList at hm
    obtain ⟨n, hn, heq⟩ := List.mem_map.mp hm
    obtain ⟨hn1, hn2⟩ := List.mem_filter.mp hn
    have hname : n = name := (Prod.mk.injEq _ _ _ _).mp heq |>.1
    subst hname
    unfold deadPred at hn2
    rw [hskip] at hn2
    simpa using hn2
  · intro hcls
    unfold deadList
    refine List.mem_map.mpr ⟨name, List.mem_filter.mpr ⟨hmem, ?_⟩, rfl⟩
    unfold deadPred
    rw [hskip, hcls]
    simp

theorem mem_lowList_iff {cfg : Config} {files : List GoFile} {name : String}
    (hskip : isSkipped cfg name = false) (hmem : name ∈ sortedNames files) :
    (name, refCount files (uniqueNames files) name,
        (defSites files name).length, defSites files name) ∈ lowList cfg files
      ↔ classify cfg.maxRefs (refCount files (uniqueNames files) name)
          (defSites files name).length
        = Category.LowUsage ((refCount files (uniqueNames files) name : Int)
            - ((defSites files name).length : Int)) := by
  constructor
  · intro hm
    unfold lowList at hm
    obtain ⟨n, hn, heq⟩ := List.mem_map.mp hm
    obtain ⟨hn1, hn2⟩ := List.mem_filter.mp hn
    have hname : n = name := (Prod.mk.injEq _ _ _ _).mp heq |>.1
    subst hname
    unfold lowPred at hn2
    rw [hskip] at hn2
    simpa using hn2
  · intro hcls
    unfold lowList
    refine List.mem_map.mpr ⟨name, List.mem_filter.mpr ⟨hmem, ?_⟩, rfl⟩
    unfold lowPred
    rw [hskip, hcls]
    simp

theorem classify_dead_iff (mr : Int) (rc dc : Nat) :
    classify mr rc dc = Category.Dead ↔ rc ≤ dc := by
  unfold classify
  split_ifs with h1 h2
  · simp [h1]
  · simp [h1]
  · simp [h1]

theorem classify_lowusage_iff (mr : Int) (rc dc : Nat) :
    classify mr rc dc = Category.LowUsage ((rc : Int) - (dc : Int))
      ↔ (dc < rc ∧ (rc : Int) ≤ mr + (dc : Int)) := by
  unfold classify
  split_ifs with h1 h2
  · constructor
    · intro hx; exact absurd hx (by simp)
    · rintro ⟨hx, _⟩; omega
  · constructor
    · intro _; exact ⟨by omega, h2⟩
    · intro _; rfl
  · constructor
    · intro hx; exact absurd hx (by simp)
    · rintro ⟨_, hx⟩; exact absurd hx h2

theorem classify_ne_low_of_neg {mr : Int} (hneg : mr < 0) (rc dc : Nat)
    (e : Int) : classify mr rc dc ≠ Category.LowUsage e := by
  unfold classify
  split_ifs with h1 h2
  · simp
  · omega
  · simp

theorem lowList_empty_of_neg {cfg : Config} (hneg : cfg.maxRefs < 0)
    (files : List GoFile) : lowList cfg files = [] := by
  unfold lowList
  have hfil : (sortedNames files).filter (lowPred cfg files) = [] := by
    rw [List.filter_eq_nil_iff]
    intro n _
    unfold lowPred
    simp [classify_ne_low_of_neg hneg]
  rw [hfil]
  rfl

theorem processOut_eq_report {cfg : Config} {root : List String}
    {tree : List GoFile}
    (h1 : (findFiles root tree).isEmpty = false)
    (h2 : (uniqueNames (findFiles root tree)).isEmpty = false) :
    processOut cfg root tree = reportLines cfg (findFiles root tree) := by
  simp [processOut, processRun, pipelineOut, h1, h2]

theorem report_nonempty {cfg : Config} {root : List String} {tree : List GoFile}
    (h1 : (findFiles root tree).isEmpty = false)
    (h2 : (uniqueNames (findFiles root tree)).isEmpty = false) :
    processOut cfg root tree ≠ [] := by
  rw [processOut_eq_report h1 h2]
  unfold reportLines bannerLines
  exact List.cons_ne_nil _ _

theorem no_files_behaviour {cfg : Config} {root : List String}
    {tree : List GoFile} (h : (findFiles root tree).isEmpty = true) :
    processOut cfg root tree = []
    ∧ "[ERROR] No Go files found in current directory"
        ∈ processErr cfg root tree := by
  constructor
  · simp [processOut, processRun, pipelineOut, h]
  · simp [processErr, processRun, pipelineErr, h, logIf]

theorem no_functions_behaviour {cfg : Config} {root : List String}
    {tree : List GoFile} (h1 : (findFiles root tree).isEmpty = false)
    (h2 : (uniqueNames (findFiles root tree)).isEmpty = true) :
    processOut cfg root tree = []
    ∧ "[ERROR] No functions found" ∈ processErr cfg root tree := by
  constructor
  · simp [processOut, processRun, pipelineOut, h1, h2]
  · simp [processErr, processRun, pipelineErr, h1, h2, logIf]

theorem sortedNames_sorted (files : List GoFile) :
    List.Sorted nameLe (sortedNames files) := by
  unfold sortedNames
  exact List.sorted_insertionSort _ _

theorem deadList_names_sorted (cfg : Config) (files : List GoFile) :
    List.Sorted nameLe ((deadList cfg files).map Prod.fst) := by
  unfold deadList
  rw [List.map_map]
  have hid : (Prod.fst ∘ fun n =>
      (n, refCount files (uniqueNames files) n, defSites files n))
      = fun n : String => n := rfl
  rw [hid, List.map_id']
  exact List.Pairwise.sublist (List.filter_sublist _) (sortedNames_sorted files)

theorem lowList_names_sorted (cfg : Config) (files : List GoFile) :
    List.Sorted nameLe ((lowList cfg files).map Prod.fst) := by
  unfold lowList
  rw [List.map_map]
  have hid : (Prod.fst ∘ fun n =>
      (n, refCount files (uniqueNames files) n,
        (defSites files n).length, defSites files n))
      = fun n : String => n := rfl
  rw [hid, List.map_id']
  exact List.Pairwise.sublist (List.filter_sublist _) (sortedNames_sorted files)

/-- Summary-mode flag set, other flags default. -/
def cfgSummary : Config := ⟨false, 1, false, false, true, false, false⟩

/-- Negative `--max-refs` value, other flags default. -/
def cfgNeg : Config := ⟨false, -1, false, false, false, false, false⟩

/-- Flags with `--include-tests` set and `--include-exported` unset. -/
def cfgTests : Config := ⟨false, 1, false, true, false, false, false⟩

/-- Claim C1, as stated, is false: in summary-only mode `process` returns
right after the statistics block, before the closing `NOTE` caveat is
printed.  Concretely, a summary-mode run over a tree with one Go file and
two functions produces a report (nonempty stdout) that does not contain the
caveat line. -/
theorem C1_counterexample :
    processOut cfgSummary [] [fileA] ≠ []
    ∧ caveatNote ∉ processOut cfgSummary [] [fileA] := by
  constructor
  · decide
  · decide

/-- Claim C1 (amended): on every run that produces a report, the closing
caveat section is printed iff the run is not in summary-only mode; in
summary-only mode the output is exactly the banner and statistics block —
no per-symbol detail lines and, contrary to the original claim, no caveat
text. -/
theorem C1_caveat_and_summary (cfg : Config) (root : List String)
    (tree : List GoFile)
    (h1 : (findFiles root tree).isEmpty = false)
    (h2 : (uniqueNames (findFiles root tree)).isEmpty = false) :
    (cfg.summary = false →
      processOut cfg root tree
        = bannerLines cfg (findFiles root tree)
          ++ (deadSection cfg (findFiles root tree)
              ++ lowSection cfg (findFiles root tree) ++ caveatLines)
      ∧ caveatNote ∈ processOut cfg root tree)
    ∧ (cfg.summary = true →
      processOut cfg root tree = bannerLines cfg (findFiles root tree)) := by
  rw [processOut_eq_report h1 h2]
  constructor
  · intro hs
    constructor
    · simp [reportLines, hs]
    · simp [reportLines, hs, caveatLines, caveatNote]
  · intro hs
    simp [reportLines, hs]

/-- Witness for C1: the default-flag run over `fileA` prints the caveat. -/
theorem C1_caveat_and_summary_witness :
    caveatNote ∈ processOut cfg0 [] [fileA] :=
  ((C1_caveat_and_summary cfg0 [] [fileA] (by decide) (by decide)).1 rfl).2

/-- Claim C2, as stated, is false: when at least one Go file is found but it
contains no function definition, `process` prints `[ERROR] No functions
found` on stderr and returns without writing any report to stdout. -/
theorem C2_counterexample :
    (findFiles [] [fileNoFunc]).isEmpty = false
    ∧ processOut cfg0 [] [fileNoFunc] = []
    ∧ "[ERROR] No functions found" ∈ processErr cfg0 [] [fileNoFunc] := by
  refine ⟨by decide, by decide, by decide⟩

/-- Claim C2 (amended): a report is written to stdout iff at least one
source file matches the glob AND at least one function definition is
extracted; with zero matching files, or with files but zero extracted
functions, an error diagnostic goes to stderr and stdout stays empty. -/
theorem C2_completion (cfg : Config) (root : List String) (tree : List GoFile) :
    ((findFiles root tree).isEmpty = true →
      processOut cfg root tree = []
      ∧ "[ERROR] No Go files found in current directory"
          ∈ processErr cfg root tree)
    ∧ ((findFiles root tree).isEmpty = false →
        (uniqueNames (findFiles root tree)).isEmpty = true →
      processOut cfg root tree = []
      ∧ "[ERROR] No functions found" ∈ processErr cfg root tree)
    ∧ ((findFiles root tree).isEmpty = false →
        (uniqueNames (findFiles root tree)).isEmpty = false →
      processOut cfg root tree ≠ []) := by
  refine ⟨fun h => no_files_behaviour h,
    fun h1 h2 => no_functions_behaviour h1 h2,
    fun h1 h2 => report_nonempty h1 h2⟩

/-- Witness for C2: over an empty tree the error diagnostic is emitted and
stdout stays empty. -/
theorem C2_completion_witness :
    processOut cfg0 [] [] = []
    ∧ "[ERROR] No Go files found in current directory"
        ∈ processErr cfg0 [] [] :=
  (C2_completion cfg0 [] []).1 (by decide)

/-- Claim C3, as stated, is false: `read_file` is a generator whose `try`
wraps the yield loop, so a decode error that surfaces only while reading a
later chunk is raised after earlier lines were already yielded and consumed.
Concretely, `fileMid` fails after its first line was decoded, a warning is
printed, and the file still contributes one definition and one reference of
`zzz` to the run — not zero. -/
theorem C3_counterexample :
    fileMid.failAt ≠ none
    ∧ readWarnings fileMid ≠ []
    ∧ (defSites [fileMid] "zzz").length = 1
    ∧ refCount [fileMid] (uniqueNames [fileMid]) "zzz" = 1 := by
  refine ⟨by decide, by decide, by decide, by decide⟩

/-- Claim C3 (amended): a file whose open or decode fails during reading
yields exactly the lines decoded before the failure — a prefix of the
successful read — and one warning diagnostic; it contributes to the run
exactly the definitions and references of that decoded prefix, zero when
the failure precedes the first line (the open-failure case), and the
contributions of all other files are untouched, so the run continues. -/
theorem C3_read_failure_isolated (f : GoFile) (k : Nat)
    (hf : f.failAt = some k) (pre post : List GoFile)
    (funcSet : List String) (name : String) :
    readFile f = (readFile (withoutFailure f)).take k
    ∧ readWarnings f
        = ["[WARN] Could not read " ++ pathString f ++ ": " ++ f.err]
    ∧ defSites (pre ++ f :: post) name
        = defSites (pre ++ okPrefix f k :: post) name
    ∧ refCount (pre ++ f :: post) funcSet name
        = refCount (pre ++ okPrefix f k :: post) funcSet name
    ∧ uniqueNames (pre ++ f :: post) = uniqueNames (pre ++ okPrefix f k :: post)
    ∧ (k = 0 →
        defSites (pre ++ f :: post) name = defSites (pre ++ post) name
        ∧ refCount (pre ++ f :: post) funcSet name
            = refCount (pre ++ post) funcSet name
        ∧ uniqueNames (pre ++ f :: post) = uniqueNames (pre ++ post)) := by
  refine ⟨readFile_take hf, by simp [readWarnings, hf],
    defSites_congr_file (readFile_okPrefix hf) rfl pre post name,
    refCount_congr_file (readFile_okPrefix hf) pre post funcSet name,
    uniqueNames_congr_file (readFile_okPrefix hf) pre post, ?_⟩
  intro hk
  subst hk
  have h0 : readFile f = [] := readFile_fail_zero hf
  exact ⟨by simp [defSites, h0], by simp [refCount, h0],
    by simp [uniqueNames, rawNames, h0]⟩

/-- Witness for C3: `fileMid`, failing after one decoded line, scanned after
`fileA`, contributes exactly as the cleanly read one-line prefix does. -/
theorem C3_read_failure_isolated_witness :
    readFile fileMid = (readFile (withoutFailure fileMid)).take 1
    ∧ readWarnings fileMid
        = ["[WARN] Could not read " ++ pathString fileMid ++ ": " ++ fileMid.err]
    ∧ defSites ([fileA] ++ fileMid :: []) "zzz"
        = defSites ([fileA] ++ okPrefix fileMid 1 :: []) "zzz"
    ∧ refCount ([fileA] ++ fileMid :: []) (uniqueNames [fileA]) "zzz"
        = refCount ([fileA] ++ okPrefix fileMid 1 :: []) (uniqueNames [fileA]) "zzz"
    ∧ uniqueNames ([fileA] ++ fileMid :: [])
        = uniqueNames ([fileA] ++ okPrefix fileMid 1 :: []) := by
  have h := C3_read_failure_isolated fileMid 1 rfl [fileA] []
    (uniqueNames [fileA]) "zzz"
  exact ⟨h.1, h.2.1, h.2.2.1, h.2.2.2.1, h.2.2.2.2.1⟩

/-- Claim C4, as stated, is false: `main` performs no validation of
`--max-refs` (argparse only enforces that it is an integer), so a negative
threshold is accepted, scanning runs, and a full report is produced. -/
theorem C4_counterexample :
    cfgNeg.maxRefs < 0 ∧ processOut cfgNeg [] [fileA] ≠ [] := by
  constructor
  · decide
  · decide

/-- Claim C4 (amended): a `--max-refs` value below 0 is not rejected; the
run proceeds and still produces a report whenever one would be produced at
all, the only effect of the negative threshold being that the low-usage
list is empty (the `elif` bound `ref_count <= max_refs + def_count` is
unsatisfiable once the dead test has failed). -/
theorem C4_negative_threshold_accepted (cfg : Config) (root : List String)
    (tree : List GoFile) (hneg : cfg.maxRefs < 0) :
    lowList cfg (findFiles root tree) = []
    ∧ ((findFiles root tree).isEmpty = false →
        (uniqueNames (findFiles root tree)).isEmpty = false →
        processOut cfg root tree ≠ []) :=
  ⟨lowList_empty_of_neg hneg _, fun h1 h2 => report_nonempty h1 h2⟩

/-- Witness for C4: the negative-threshold run over `fileA` produces a
report with an empty low-usage list. -/
theorem C4_negative_threshold_accepted_witness :
    lowList cfgNeg (findFiles [] [fileA]) = []
    ∧ ((findFiles [] [fileA]).isEmpty = false →
        (uniqueNames (findFiles [] [fileA])).isEmpty = false →
        processOut cfgNeg [] [fileA] ≠ []) :=
  C4_negative_threshold_accepted cfgNeg [] [fileA] (by decide)

/-- Claim C5: for a non-excluded symbol of the table, membership in
`dead_candidates` is exactly `occurrence_count ≤ definition_count` and
membership in `low_usage` is exactly `definition_count < occurrence_count ≤
definition_count + max_refs` (with `extra = occurrence_count -
definition_count`); at the boundary `max-refs = 1`, one definition site:
1 occurrence → Dead, 2 occurrences → LowUsage with extra 1, 3 occurrences →
Normal (omitted). -/
theorem C5_classifier (cfg : Config) (files : List GoFile) (name : String)
    (hskip : isSkipped cfg name = false) (hmem : name ∈ sortedNames files) :
    ((name, refCount files (uniqueNames files) name, defSites files name)
        ∈ deadList cfg files
      ↔ refCount files (uniqueNames files) name ≤ (defSites files name).length)
    ∧ ((name, refCount files (uniqueNames files) name,
          (defSites files name).length, defSites files name) ∈ lowList cfg files
      ↔ ((defSites files name).length < refCount files (uniqueNames files) name
          ∧ (refCount files (uniqueNames files) name : Int)
              ≤ cfg.maxRefs + ((defSites files name).length : Int)))
    ∧ (∀ rc dc : Nat, rc ≤ dc → classify cfg.maxRefs rc dc = Category.Dead)
    ∧ (∀ rc dc : Nat, dc < rc → (rc : Int) ≤ cfg.maxRefs + (dc : Int) →
        classify cfg.maxRefs rc dc = Category.LowUsage ((rc : Int) - (dc : Int)))
    ∧ (∀ rc dc : Nat, dc < rc → cfg.maxRefs + (dc : Int) < (rc : Int) →
        classify cfg.maxRefs rc dc = Category.Normal)
    ∧ classify 1 1 1 = Category.Dead
    ∧ classify 1 2 1 = Category.LowUsage 1
    ∧ classify 1 3 1 = Category.Normal := by
  refine ⟨?_, ?_, ?_, ?_, ?_, by decide, by decide, by decide⟩
  · rw [mem_deadList_iff hskip hmem, classify_dead_iff]
  · rw [mem_lowList_iff hskip hmem, classify_lowusage_iff]
  · intro rc dc h
    rw [classify_dead_iff]; exact h
  · intro rc dc h1 h2
    rw [classify_lowusage_iff]; exact ⟨h1, h2⟩
  · intro rc dc h1 h2
    unfold classify
    rw [if_neg (by omega), if_neg (by omega)]

/-- Witness for C5 over the concrete `fileA` tree: `helper` (1 definition,
2 occurrences) is exactly a low-usage symbol and not a dead one. -/
theorem C5_classifier_witness :
    ((("helper" : String), refCount [fileA] (uniqueNames [fileA]) "helper",
        defSites [fileA] "helper") ∈ deadList cfg0 [fileA]
      ↔ refCount [fileA] (uniqueNames [fileA]) "helper"
          ≤ (defSites [fileA] "helper").length)
    ∧ ((("helper" : String), refCount [fileA] (uniqueNames [fileA]) "helper",
          (defSites [fileA] "helper").length, defSites [fileA] "helper")
        ∈ lowList cfg0 [fileA]
      ↔ ((defSites [fileA] "helper").length
            < refCount [fileA] (uniqueNames [fileA]) "helper"
          ∧ (refCount [fileA] (uniqueNames [fileA]) "helper" : Int)
              ≤ cfg0.maxRefs + ((defSites [fileA] "helper").length : Int))) :=
  ⟨(C5_classifier cfg0 [fileA] "helper" (by decide) (by decide)).1,
   (C5_classifier cfg0 [fileA] "helper" (by decide) (by decide)).2.1⟩

/-- Claim C6: every symbol the Extractor found occurs at least as often in
the reference scan as it has definition sites, because a line matched by
`FUNC_PATTERN` also yields a word-boundary token equal to the captured
name. -/
theorem C6_occurrences_ge_definitions (files : List GoFile) (name : String)
    (h : name ∈ uniqueNames files) :
    (defSites files name).length ≤ refCount files (uniqueNames files) name
    ∧ ∀ s n : String, lineCapture s = some n → n ∈ lineTokens s :=
  ⟨defSites_length_le_refCount (uniqueNames files) name h files,
   fun _ _ hc => lineCapture_mem_lineTokens hc⟩

/-- Witness for C6 at the concrete tree `[fileA]` and symbol `helper`. -/
theorem C6_occurrences_ge_definitions_witness :
    ("helper" : String) ∈ uniqueNames [fileA]
    ∧ (defSites [fileA] "helper").length
        ≤ refCount [fileA] (uniqueNames [fileA]) "helper" :=
  ⟨by decide, (C6_occurrences_ge_definitions [fileA] "helper" (by decide)).1⟩

/-- Claim C7: a `Test`-prefixed symbol never reaches the dead or low-usage
lists unless `--include-tests` is set; an exported (capitalized) symbol
never does unless `--include-exported` is set; and `init`, `main`,
`String`, `Error` never do, for every flag combination. -/
theorem C7_exclusion_correctness (cfg : Config) (files : List GoFile)
    (name : String) :
    (cfg.includeTests = false → strStartsWith name ("Test") = true →
      (∀ (rc : Nat) (ds : List (String × Nat)),
          (name, rc, ds) ∉ deadList cfg files)
      ∧ ∀ (rc dc : Nat) (ds : List (String × Nat)),
          (name, rc, dc, ds) ∉ lowList cfg files)
    ∧ (cfg.includeExported = false → isExportedName name = true →
      (∀ (rc : Nat) (ds : List (String × Nat)),
          (name, rc, ds) ∉ deadList cfg files)
      ∧ ∀ (rc dc : Nat) (ds : List (String × Nat)),
          (name, rc, dc, ds) ∉ lowList cfg files)
    ∧ (name = "init" ∨ name = "main" ∨ name = "String" ∨ name = "Error" →
      (∀ (rc : Nat) (ds : List (String × Nat)),
          (name, rc, ds) ∉ deadList cfg files)
      ∧ ∀ (rc dc : Nat) (ds : List (String × Nat)),
          (name, rc, dc, ds) ∉ lowList cfg files) := by
  refine ⟨fun hT hS => ?_, fun hE hX => ?_, fun hfix => ?_⟩
  · have hskip : isSkipped cfg name = true := by
      simp [isSkipped, hT, hS]
    exact ⟨not_mem_deadList_of_skipped hskip, not_mem_lowList_of_skipped hskip⟩
  · have hskip : isSkipped cfg name = true := by
      simp [isSkipped, hE, hX]
    exact ⟨not_mem_deadList_of_skipped hskip, not_mem_lowList_of_skipped hskip⟩
  · have hskip : isSkipped cfg name = true := by
      rcases hfix with h | h | h | h <;> subst h <;> simp [isSkipped]
    exact ⟨not_mem_deadList_of_skipped hskip, not_mem_lowList_of_skipped hskip⟩

/-- Witness for C7: `main` never appears as a dead candidate, here at one
concrete entry and run. -/
theorem C7_exclusion_correctness_witness :
    (("main" : String), 1, [(("a.go" : String), 1)]) ∉ deadList cfg0 [fileA] :=
  ((C7_exclusion_correctness cfg0 [fileA] "main").2.2
    (Or.inr (Or.inl rfl))).1 1 [("a.go", 1)]

/-- Claim C8: the pipeline is a deterministic function of the tree contents
and the configuration — any two enumeration orders of the same file tree
(with its paths distinct, as on a real file system) give byte-identical
stdout and stderr, and the reported dead and low-usage lists are sorted by
symbol name. -/
theorem C8_determinism (cfg : Config) (root : List String)
    (t₁ t₂ : List GoFile) (hp : t₁.Perm t₂)
    (hnd : (t₁.map pathString).Nodup) :
    processRun cfg root t₁ = processRun cfg root t₂
    ∧ List.Sorted nameLe ((deadList cfg (findFiles root t₁)).map Prod.fst)
    ∧ List.Sorted nameLe ((lowList cfg (findFiles root t₁)).map Prod.fst) := by
  have hf : findFiles root t₁ = findFiles root t₂ := findFiles_perm_eq hp hnd
  refine ⟨?_, deadList_names_sorted cfg _, lowList_names_sorted cfg _⟩
  unfold processRun
  rw [hf]

/-- Witness for C8: the two enumeration orders of the two-file tree give the
same run. -/
theorem C8_determinism_witness :
    processRun cfg0 [] [fileNoFunc, fileA] = processRun cfg0 [] [fileA, fileNoFunc]
    ∧ List.Sorted nameLe
        ((deadList cfg0 (findFiles [] [fileNoFunc, fileA])).map Prod.fst)
    ∧ List.Sorted nameLe
        ((lowList cfg0 (findFiles [] [fileNoFunc, fileA])).map Prod.fst) :=
  C8_determinism cfg0 [] [fileNoFunc, fileA] [fileA, fileNoFunc]
    (by decide) (by decide)

/-- Claim C9, as stated, is false: `find_files` tests the excluded directory
names against the parts of the *absolute* walked path, which include the
components of the root itself.  A root lying under a directory named
`vendor` therefore excludes every file, even one whose root-relative path
has no excluded component. -/
theorem C9_counterexample :
    matchesGoGlob fileA = true
    ∧ (∀ d ∈ fileA.parts, d ∉ excludedDirs)
    ∧ fileA ∉ findFiles ["vendor"] [fileA] := by
  refine ⟨by decide, by decide, by decide⟩

/-- Claim C9 (amended): the Tree Walker returns a `fileLe`-sorted (i.e.
lexicographic, by rendered relative path) list containing exactly the
glob-matching files none of whose full-path components — the root
components followed by the root-relative components — is excluded. -/
theorem C9_tree_walker (root : List String) (tree : List GoFile) :
    List.Sorted fileLe (findFiles root tree)
    ∧ ∀ f : GoFile,
      (f ∈ findFiles root tree ↔ f ∈ tree ∧ keepFile root f = true)
      ∧ (keepFile root f = true
          ↔ (matchesGoGlob f = true ∧ ∀ d ∈ root ++ f.parts, d ∉ excludedDirs)) := by
  refine ⟨findFiles_sorted root tree, fun f => ⟨?_, ?_⟩⟩
  · rw [(findFiles_perm root tree).mem_iff, List.mem_filter]
  · unfold keepFile
    simp only [Bool.and_eq_true, Bool.not_eq_true', List.any_eq_false,
      decide_eq_true_eq, List.mem_append]

/-- Claim C10: because the test prefix `Test` starts with an uppercase
letter, a `Test`-prefixed symbol satisfies the exported convention, so with
`--include-exported` unset it stays excluded no matter how `--include-tests`
is set. -/
theorem C10_test_prefix_needs_exported (cfg : Config) (files : List GoFile)
    (name : String) (ht : strStartsWith name ("Test") = true)
    (he : cfg.includeExported = false) :
    (∀ (rc : Nat) (ds : List (String × Nat)),
        (name, rc, ds) ∉ deadList cfg files)
    ∧ ∀ (rc dc : Nat) (ds : List (String × Nat)),
        (name, rc, dc, ds) ∉ lowList cfg files := by
  have hskip : isSkipped cfg name = true := by
    simp [isSkipped, he, exported_of_test_start ht]
  exact ⟨not_mem_deadList_of_skipped hskip, not_mem_lowList_of_skipped hskip⟩

/-- Witness for C10: with `--include-tests` set and `--include-exported`
unset, `TestFoo` still cannot appear as a dead candidate. -/
theorem C10_test_prefix_needs_exported_witness :
    (("TestFoo" : String), 1, [(("a.go" : String), 1)])
      ∉ deadList cfgTests [fileA] :=
  (C10_test_prefix_needs_exported cfgTests [fileA] "TestFoo"
    (by decide) rfl).1 1 [("a.go", 1)]
